import Mathlib

/-!
Verification of the NLP_OCR license-plate pipeline (Abdi036/NLP_OCR_project).

The Python sources are shallowly embedded:
* Python strings become `List Char`; `str.upper`, `str.strip` and the
  regex `[^A-Z0-9]` removal become explicit functions on character lists.
* OCR confidences (Python floats compared only with `>` / `max`) become `ℚ`.
* `max(xs, key=k)` and `sorted(xs, key=k, reverse=True)` are embedded by
  `pyMaxBy` / `pySortedDesc`, reproducing CPython's observable semantics:
  `max` keeps the first maximal element, `sorted` is a stable sort.
* Images become `PixelGrid` (height, width, and a pixel function); the
  external CV primitives (EasyOCR, the Haar cascade, `cv2.findContours`,
  `cv2.resize`) are inputs or parameters of the embedded functions, since
  their outputs are data the repository's own code only post-processes.
-/

namespace NLPOCR

/-! ## Python primitives -/

/-- Python `max(xs, key=key)`: fold keeping the current best, replacing it
only when a strictly larger key appears, hence the first maximal element
wins; `none` on the empty list (where Python raises `ValueError`). -/
def pyMaxBy {α β : Type} [LinearOrder β] (key : α → β) : List α → Option α
  | [] => none
  | x :: xs => some (xs.foldl (fun best y => if key best < key y then y else best) x)

/-- Insert into a descending-sorted list, after every element of
strictly larger key and before every element of smaller-or-equal key,
so that the resulting sort is stable, as Python's `sorted` is. -/
def insertDesc {α β : Type} [LinearOrder β] (key : α → β) (x : α) : List α → List α
  | [] => [x]
  | y :: ys => if key x < key y then y :: insertDesc key x ys else x :: y :: ys

/-- Python `sorted(xs, key=key, reverse=True)`: a stable descending sort. -/
def pySortedDesc {α β : Type} [LinearOrder β] (key : α → β) : List α → List α
  | [] => []
  | x :: xs => insertDesc key x (pySortedDesc key xs)

/-- Python `str.upper()` restricted to the ASCII range the plate strings use. -/
def pyUpper (s : List Char) : List Char := s.map Char.toUpper

/-- Python `str.strip()`: drop leading and trailing whitespace. -/
def pyStrip (s : List Char) : List Char :=
  ((s.dropWhile Char.isWhitespace).reverse.dropWhile Char.isWhitespace).reverse

/-! ## ocr_processor.py -/

/-- A character kept by the regex substitution `re.sub(r'[^A-Z0-9]', '', ·)`. -/
def keepAZ09 (c : Char) : Bool :=
  ('A' ≤ c && c ≤ 'Z') || ('0' ≤ c && c ≤ '9')

/-- `re.sub(r'[^A-Z0-9]', '', text.upper())` from
`OCRProcessor.extract_plate_number`. -/
def cleanText (s : List Char) : List Char := (pyUpper s).filter keepAZ09

/-- One OCR candidate: raw text and confidence, as returned by
`OCRProcessor.extract_text`. -/
abbrev TextCandidate : Type := List Char × ℚ

/-- The `cleaned_results` list built by the loop in
`OCRProcessor.extract_plate_number`: each candidate's cleaned text, kept
only when its length lies in `[4, 10]`. -/
def cleaned_results (results : List TextCandidate) : List TextCandidate :=
  results.filterMap (fun tc =>
    let cleaned := cleanText tc.1
    if 4 ≤ cleaned.length ∧ cleaned.length ≤ 10 then some (cleaned, tc.2) else none)

/-- `OCRProcessor.extract_plate_number`, from the point where the engine's
candidate list `results` is in hand (the call to `extract_text` is the
EasyOCR black box and is the function's input here). -/
def extract_plate_number (results : List TextCandidate) : Option TextCandidate :=
  if results = [] then none
  else
    let cleaned := cleaned_results results
    if cleaned = [] then
      if results = [] then none
      else
        match pyMaxBy (fun x => x.2) results with
        | some tc => some (pyUpper (pyStrip tc.1), tc.2)
        | none => none
    else
      pyMaxBy (fun x => x.2) cleaned

/-! ## image_handler.py -/

/-- A decoded image: height, width, and the pixel sample at each coordinate
(channels folded into the sample value; the claims never inspect samples). -/
structure PixelGrid where
  height : Nat
  width : Nat
  data : Nat → Nat → Nat

/-- `ImageHandler.SUPPORTED_FORMATS`. -/
def SUPPORTED_FORMATS : List (List Char) :=
  ["image/jpeg".toList, "image/jpg".toList, "image/png".toList, "image/webp".toList]

/-- `ImageHandler.MAX_FILE_SIZE` (10 MiB). -/
def MAX_FILE_SIZE : Nat := 10 * 1024 * 1024

/-- The fixed prefix of the decoder-failure message in
`ImageHandler.validate_image`. -/
def invalidImageMsg : List Char := "Invalid image file: ".toList

/-- `ImageHandler.validate_image`. The `PIL.Image.open`/`verify` step is the
parameter `decode`: `.ok ()` when PIL accepts the bytes, `.error e` when it
raises an exception with message `e` (the Python `try/except` is the `match`,
so no exception escapes). The Python format-error message joins a set in
unspecified order; one fixed order stands for it here. -/
def validate_image (decode : List Nat → Except (List Char) Unit)
    (file_content : List Nat) (content_type : List Char) : Bool × List Char :=
  if file_content.length > MAX_FILE_SIZE then
    (false, "File size exceeds 10MB limit".toList)
  else if content_type ∉ SUPPORTED_FORMATS then
    (false, "Unsupported format. Use: image/jpeg, image/jpg, image/png, image/webp".toList)
  else
    match decode file_content with
    | .ok _ => (true, [])
    | .error e => (false, invalidImageMsg ++ e)

/-- `ImageHandler.resize_if_needed`. `cv2.resize` is the parameter
`cv2resize img w h` (the requested target width and height); Python's
float `scale = max_dimension / max(h, w)` and `int(·)` truncation of the
non-negative products are embedded exactly over `ℚ`. -/
def resize_if_needed (cv2resize : PixelGrid → Nat → Nat → PixelGrid)
    (img : PixelGrid) (max_dimension : Nat := 1920) : PixelGrid :=
  let height := img.height
  let width := img.width
  if max height width > max_dimension then
    let scale : ℚ := (max_dimension : ℚ) / (max height width : ℚ)
    let new_width := (Int.floor ((width : ℚ) * scale)).toNat
    let new_height := (Int.floor ((height : ℚ) * scale)).toNat
    cv2resize img new_width new_height
  else img

/-! ## plate_detector.py -/

/-- A bounding box `(x, y, w, h)` in pixel coordinates, as produced by the
detectors (Python ints). -/
abbrev Box : Type := Int × Int × Int × Int

/-- The sort key `lambda p: p[2] * p[3]` of `get_best_plate`. -/
def boxArea (b : Box) : Int := b.2.2.1 * b.2.2.2

/-- The numpy slice `img[y1:y2, x1:x2]` as `get_best_plate` performs it
(there `0 ≤ y1 ≤ y2 ≤ height` and `0 ≤ x1 ≤ x2 ≤ width` by construction). -/
def cropGrid (img : PixelGrid) (y1 y2 x1 x2 : Int) : PixelGrid :=
  { height := (y2 - y1).toNat
    width := (x2 - x1).toNat
    data := fun i j => img.data (y1 + i).toNat (x1 + j).toNat }

/-- One contour as `detect_plates_contour_method` consumes it: its
`cv2.contourArea`, the vertex count of its `cv2.approxPolyDP` polygon at
tolerance 2% of perimeter, and its `cv2.boundingRect`. The CV functions
producing these are black boxes; the repository's code only reads these
three attributes of each contour. -/
structure Contour where
  area : ℚ
  approxLen : Nat
  rect : Box

/-- The aspect-ratio test `2.0 <= w / float(h) <= 5.0` of
`detect_plates_contour_method` (`cv2.boundingRect` always returns `h ≥ 1`,
so the Python float division is total there; over `ℚ`, `w / 0 = 0` and the
test fails, which matches no box being emitted). -/
def aspectOk (b : Box) : Prop :=
  2 ≤ (b.2.2.1 : ℚ) / (b.2.2.2 : ℚ) ∧ (b.2.2.1 : ℚ) / (b.2.2.2 : ℚ) ≤ 5

instance (b : Box) : Decidable (aspectOk b) := by unfold aspectOk; infer_instance

/-- `PlateDetector.detect_plates_contour_method`, from the point where
`cv2.findContours` has produced the contour list: sort by area descending,
keep the first 10, and emit the bounding rectangle of each 4-vertex
approximation whose aspect ratio lies in `[2.0, 5.0]`. -/
def detect_plates_contour_method (contours : List Contour) : List Box :=
  let top := (pySortedDesc Contour.area contours).take 10
  top.filterMap (fun c =>
    if c.approxLen = 4 ∧ aspectOk c.rect then some c.rect else none)

/-- The plate list `get_best_plate` ends up working on: the cascade
detector's boxes, falling back to the contour detector's boxes only when the
cascade found none (`if not plates: plates = self.detect_plates_contour_method(img)`). -/
def usedPlates (cascadePlates contourPlates : List Box) : List Box :=
  if cascadePlates = [] then contourPlates else cascadePlates

/-- `PlateDetector.get_best_plate`. The two detector invocations are the
inputs `cascadePlates` (from `detect_plates`, the Haar cascade) and
`contourPlates` (from `detect_plates_contour_method`); the code's own logic
— fallback order, largest-area selection via a stable reverse sort, 5-pixel
padded clamped crop, and reporting the unexpanded box — is embedded
exactly. -/
def get_best_plate (cascadePlates contourPlates : List Box)
    (img : PixelGrid) : Option (PixelGrid × Box) :=
  let plates := usedPlates cascadePlates contourPlates
  if plates = [] then none
  else
    match pySortedDesc boxArea plates with
    | [] => none
    | (x, y, w, h) :: _ =>
      let padding : Int := 5
      let y1 := max 0 (y - padding)
      let y2 := min (img.height : Int) (y + h + padding)
      let x1 := max 0 (x - padding)
      let x2 := min (img.width : Int) (x + w + padding)
      some (cropGrid img y1 y2 x1 x2, (x, y, w, h))

/-! ## Concrete fixtures used to instantiate the theorems -/

/-- A concrete 100×200 all-zero image. -/
def testImg : PixelGrid := ⟨100, 200, fun _ _ => 0⟩

/-- A concrete 3840×1000 all-zero image, whose larger side exceeds 1920. -/
def bigImg : PixelGrid := ⟨3840, 1000, fun _ _ => 0⟩

/-- A stand-in for `cv2.resize`: returns a grid of exactly the requested
target width and height (the only property of `cv2.resize` the resize
theorems rely on). -/
def resizeStub (g : PixelGrid) (w h : Nat) : PixelGrid := ⟨h, w, g.data⟩

/-! ## Lemmas about the Python `max` / `sorted` embeddings -/

/-- The fold inside `pyMaxBy` returns the first maximal element: the input
splits as `l₁ ++ m :: l₂` with everything before `m` strictly smaller and
everything after at most `m`. -/
theorem foldlMax_spec {α β : Type} [LinearOrder β] (key : α → β) :
    ∀ (xs : List α) (x : α), ∃ m l₁ l₂,
      xs.foldl (fun best y => if key best < key y then y else best) x = m ∧
      x :: xs = l₁ ++ m :: l₂ ∧
      (∀ p ∈ l₁, key p < key m) ∧ (∀ p ∈ l₂, key p ≤ key m) := by
  intro xs
  induction xs with
  | nil => exact fun x => ⟨x, [], [], rfl, rfl, by simp, by simp⟩
  | cons y ys ih =>
    intro x
    by_cases h : key x < key y
    · obtain ⟨m, l₁, l₂, hfold, heq, h₁, h₂⟩ := ih y
      refine ⟨m, x :: l₁, l₂, ?_, ?_, ?_, h₂⟩
      · simpa [if_pos h] using hfold
      · simpa using heq
      · intro p hp
        rcases List.mem_cons.mp hp with rfl | hp
        · have hy : key y ≤ key m := by
            cases l₁ with
            | nil =>
              obtain ⟨rfl, -⟩ : y = m ∧ ys = l₂ := by simpa using heq
              exact le_rfl
            | cons a as =>
              obtain ⟨rfl, -⟩ : y = a ∧ ys = as ++ m :: l₂ := by simpa using heq
              exact le_of_lt (h₁ y (List.mem_cons_self _ _))
          exact lt_of_lt_of_le h hy
        · exact h₁ p hp
    · obtain ⟨m, l₁, l₂, hfold, heq, h₁, h₂⟩ := ih x
      cases l₁ with
      | nil =>
        obtain ⟨rfl, rfl⟩ : x = m ∧ ys = l₂ := by simpa using heq
        refine ⟨x, [], y :: ys, ?_, by simp, by simp, ?_⟩
        · simpa [if_neg h] using hfold
        · intro p hp
          rcases List.mem_cons.mp hp with rfl | hp
          · exact not_lt.mp h
          · exact h₂ p hp
      | cons a as =>
        obtain ⟨rfl, rfl⟩ : x = a ∧ ys = as ++ m :: l₂ := by simpa using heq
        refine ⟨m, x :: y :: as, l₂, ?_, by simp, ?_, h₂⟩
        · simpa [if_neg h] using hfold
        · intro p hp
          have hx : key x < key m := h₁ x (List.mem_cons_self _ _)
          rcases List.mem_cons.mp hp with rfl | hp
          · exact hx
          · rcases List.mem_cons.mp hp with rfl | hp
            · exact lt_of_le_of_lt (not_lt.mp h) hx
            · exact h₁ p (List.mem_cons_of_mem _ hp)

/-- `pyMaxBy` on a non-empty list returns the first maximal element. -/
theorem pyMaxBy_spec {α β : Type} [LinearOrder β] (key : α → β)
    (l : List α) (hl : l ≠ []) :
    ∃ m l₁ l₂, pyMaxBy key l = some m ∧ l = l₁ ++ m :: l₂ ∧
      (∀ p ∈ l₁, key p < key m) ∧ (∀ p ∈ l₂, key p ≤ key m) := by
  cases l with
  | nil => exact absurd rfl hl
  | cons x xs =>
    obtain ⟨m, l₁, l₂, hfold, heq, h₁, h₂⟩ := foldlMax_spec key xs x
    exact ⟨m, l₁, l₂, by simp [pyMaxBy, hfold], heq, h₁, h₂⟩

/-- A maximal element found by `pyMaxBy` belongs to the list and dominates
every element of the list. -/
theorem pyMaxBy_max {α β : Type} [LinearOrder β] (key : α → β)
    (l : List α) {m : α} (hm : pyMaxBy key l = some m) :
    m ∈ l ∧ ∀ p ∈ l, key p ≤ key m := by
  have hl : l ≠ [] := by rintro rfl; simp [pyMaxBy] at hm
  obtain ⟨m', l₁, l₂, hm', heq, h₁, h₂⟩ := pyMaxBy_spec key l hl
  rw [hm] at hm'
  obtain rfl : m = m' := by injection hm'
  subst heq
  refine ⟨List.mem_append.mpr (Or.inr (List.mem_cons_self _ _)), ?_⟩
  intro p hp
  rcases List.mem_append.mp hp with hp | hp
  · exact le_of_lt (h₁ p hp)
  · rcases List.mem_cons.mp hp with rfl | hp
    · exact le_rfl
    · exact h₂ p hp

/-- `insertDesc` permutes the inserted-into list with the new element. -/
theorem insertDesc_perm {α β : Type} [LinearOrder β] (key : α → β) (x : α) :
    ∀ l : List α, (insertDesc key x l).Perm (x :: l) := by
  intro l
  induction l with
  | nil => simp [insertDesc]
  | cons y ys ih =>
    by_cases h : key x < key y
    · simp only [insertDesc, if_pos h]
      exact (ih.cons y).trans (List.Perm.swap x y ys)
    · simp [insertDesc, if_neg h]

/-- `pySortedDesc` permutes its input. -/
theorem pySortedDesc_perm {α β : Type} [LinearOrder β] (key : α → β) :
    ∀ l : List α, (pySortedDesc key l).Perm l := by
  intro l
  induction l with
  | nil => simp [pySortedDesc]
  | cons x xs ih =>
    exact (insertDesc_perm key x (pySortedDesc key xs)).trans (ih.cons x)

/-- `insertDesc` preserves descending sortedness. -/
theorem insertDesc_pairwise {α β : Type} [LinearOrder β] (key : α → β) (x : α) :
    ∀ l : List α, l.Pairwise (fun a b => key b ≤ key a) →
      (insertDesc key x l).Pairwise (fun a b => key b ≤ key a) := by
  intro l
  induction l with
  | nil => intro _; simp [insertDesc]
  | cons y ys ih =>
    intro hp
    rw [List.pairwise_cons] at hp
    by_cases h : key x < key y
    · simp only [insertDesc, if_pos h]
      rw [List.pairwise_cons]
      refine ⟨?_, ih hp.2⟩
      intro a ha
      have := (insertDesc_perm key x ys).mem_iff.mp ha
      rcases List.mem_cons.mp this with rfl | hmem
      · exact le_of_lt h
      · exact hp.1 a hmem
    · simp only [insertDesc, if_neg h]
      rw [List.pairwise_cons]
      refine ⟨?_, List.pairwise_cons.mpr hp⟩
      intro a ha
      rcases List.mem_cons.mp ha with rfl | hmem
      · exact not_lt.mp h
      · exact le_trans (hp.1 a hmem) (not_lt.mp h)

/-- `pySortedDesc` output is sorted with keys descending. -/
theorem pySortedDesc_pairwise {α β : Type} [LinearOrder β] (key : α → β) :
    ∀ l : List α, (pySortedDesc key l).Pairwise (fun a b => key b ≤ key a) := by
  intro l
  induction l with
  | nil => simp [pySortedDesc]
  | cons x xs ih => exact insertDesc_pairwise key x _ ih

/-- The head of the stable descending sort is the first maximal element of
the input: the input splits as `l₁ ++ m :: l₂`, everything before `m`
strictly smaller, everything after at most `m`. -/
theorem pySortedDesc_head_spec {α β : Type} [LinearOrder β] (key : α → β) :
    ∀ l : List α, l ≠ [] → ∃ m rest l₁ l₂,
      pySortedDesc key l = m :: rest ∧ l = l₁ ++ m :: l₂ ∧
      (∀ p ∈ l₁, key p < key m) ∧ (∀ p ∈ l₂, key p ≤ key m) := by
  intro l
  induction l with
  | nil => exact fun h => absurd rfl h
  | cons x xs ih =>
    intro _
    by_cases hxs : xs = []
    · subst hxs
      exact ⟨x, [], [], [], rfl, rfl, by simp, by simp⟩
    · obtain ⟨m, rest, l₁, l₂, hsort, heq, h₁, h₂⟩ := ih hxs
      by_cases hx : key x < key m
      · refine ⟨m, insertDesc key x rest, x :: l₁, l₂, ?_, by simpa using heq, ?_, h₂⟩
        · simp [pySortedDesc, hsort, insertDesc, if_pos hx]
        · intro p hp
          rcases List.mem_cons.mp hp with rfl | hp
          · exact hx
          · exact h₁ p hp
      · refine ⟨x, m :: rest, [], xs, ?_, rfl, by simp, ?_⟩
        · simp [pySortedDesc, hsort, insertDesc, if_neg hx]
        · intro p hp
          have hm : key m ≤ key x := not_lt.mp hx
          rw [heq] at hp
          rcases List.mem_append.mp hp with hp | hp
          · exact le_trans (le_of_lt (h₁ p hp)) hm
          · rcases List.mem_cons.mp hp with rfl | hp
            · exact hm
            · exact le_trans (h₂ p hp) hm

/-- `pyMaxBy` returns a value on any non-empty list. -/
theorem pyMaxBy_isSome {α β : Type} [LinearOrder β] (key : α → β) {l : List α}
    (hl : l ≠ []) : ∃ m, pyMaxBy key l = some m := by
  cases l with
  | nil => exact absurd rfl hl
  | cons x xs => exact ⟨_, rfl⟩

/-! ## Helper lemmas about the embedded functions -/

/-- Every pair kept in `cleaned_results` carries a text of length 4 to 10. -/
theorem mem_cleaned_results {results : List TextCandidate} {p : TextCandidate}
    (hp : p ∈ cleaned_results results) : 4 ≤ p.1.length ∧ p.1.length ≤ 10 := by
  simp only [cleaned_results, List.mem_filterMap] at hp
  obtain ⟨tc, -, hsome⟩ := hp
  by_cases h : 4 ≤ (cleanText tc.1).length ∧ (cleanText tc.1).length ≤ 10
  · rw [if_pos h] at hsome
    obtain rfl := Option.some.inj hsome
    simpa using h
  · rw [if_neg h] at hsome
    exact absurd hsome (by simp)

/-- `filterMap` with an `if ... then some (f ·) else none` body is a filter
followed by a map. -/
theorem filterMap_ite_eq_filter_map {α γ : Type} (p : α → Prop) [DecidablePred p]
    (f : α → γ) :
    ∀ l : List α, (l.filterMap fun c => if p c then some (f c) else none) =
      (l.filter fun c => decide (p c)).map f := by
  intro l
  induction l with
  | nil => rfl
  | cons x xs ih =>
    by_cases h : p x
    · simp [h, ih]
    · simp [h, ih]

/-- A successful `get_best_plate` result is built from the first maximal-area
box of the detector list that ran: the list splits around the returned box
with strictly smaller areas before it and no larger area after it, and the
returned grid is the 5-pixel-padded clamped crop at that box. -/
theorem get_best_plate_some {cascadePlates contourPlates : List Box}
    {img : PixelGrid} {g : PixelGrid} {b : Box}
    (h : get_best_plate cascadePlates contourPlates img = some (g, b)) :
    ∃ l₁ l₂, usedPlates cascadePlates contourPlates = l₁ ++ b :: l₂ ∧
      (∀ p ∈ l₁, boxArea p < boxArea b) ∧ (∀ p ∈ l₂, boxArea p ≤ boxArea b) ∧
      g = cropGrid img (max 0 (b.2.1 - 5)) (min (img.height : Int) (b.2.1 + b.2.2.2 + 5))
            (max 0 (b.1 - 5)) (min (img.width : Int) (b.1 + b.2.2.1 + 5)) := by
  by_cases hP : usedPlates cascadePlates contourPlates = []
  · simp only [get_best_plate, if_pos hP] at h
    exact absurd h (by simp)
  · obtain ⟨m, rest, l₁, l₂, hsort, heq, h₁, h₂⟩ :=
      pySortedDesc_head_spec boxArea (usedPlates cascadePlates contourPlates) hP
    obtain ⟨x, y, w, hh⟩ := m
    simp only [get_best_plate, if_neg hP, hsort] at h
    rw [Option.some.injEq, Prod.mk.injEq] at h
    obtain ⟨hg, hb⟩ := h
    subst hb
    exact ⟨l₁, l₂, heq, h₁, h₂, hg.symm⟩

/-- `get_best_plate` returns a value whenever the detector list it uses is
non-empty. -/
theorem get_best_plate_isSome {cascadePlates contourPlates : List Box}
    (img : PixelGrid) (hP : usedPlates cascadePlates contourPlates ≠ []) :
    ∃ r, get_best_plate cascadePlates contourPlates img = some r := by
  obtain ⟨m, rest, l₁, l₂, hsort, -, -, -⟩ :=
    pySortedDesc_head_spec boxArea (usedPlates cascadePlates contourPlates) hP
  obtain ⟨x, y, w, hh⟩ := m
  refine ⟨(cropGrid img (max 0 (y - 5)) (min (img.height : Int) (y + hh + 5))
      (max 0 (x - 5)) (min (img.width : Int) (x + w + 5)), (x, y, w, hh)), ?_⟩
  simp only [get_best_plate, if_neg hP, hsort]

/-! ## Claim theorems -/

/-- C1 (counterexample): on the non-empty candidate list holding the single
candidate whose raw text is one space, `extract_plate_number` returns `some`
of the empty string, whose length is 0, not at least 1: the space is removed
by the cleaning (so the length filter drops the candidate) and the fallback
path strips it from the raw text as well. -/
theorem extract_plate_number_counterexample :
    extract_plate_number [(" ".toList, (1 : ℚ))] = some ([], 1) ∧
    ([] : List Char).length < 1 := ⟨rfl, by decide⟩

/-- C1 (amended): `extract_plate_number` returns `none` exactly when the
candidate list is empty; and on a non-empty candidate list the returned
string has length at least 1 provided every candidate's whitespace-stripped
raw text is non-empty. -/
theorem extract_plate_number_none_iff_length (results : List TextCandidate) :
    (extract_plate_number results = none ↔ results = []) ∧
    ((∀ p ∈ results, pyStrip p.1 ≠ []) →
      ∀ r, extract_plate_number results = some r → 1 ≤ r.1.length) := by
  constructor
  · constructor
    · intro h
      by_contra hne
      by_cases hcl : cleaned_results results = []
      · obtain ⟨m, hm⟩ := pyMaxBy_isSome (fun x : TextCandidate => x.2) hne
        have : extract_plate_number results = some (pyUpper (pyStrip m.1), m.2) := by
          simp [extract_plate_number, if_neg hne, hcl, hm]
        rw [this] at h
        exact absurd h (by simp)
      · obtain ⟨m, hm⟩ := pyMaxBy_isSome (fun x : TextCandidate => x.2) hcl
        have : extract_plate_number results = some m := by
          simp only [extract_plate_number, if_neg hne, if_neg hcl, hm]
        rw [this] at h
        exact absurd h (by simp)
    · rintro rfl
      rfl
  · intro hstrip r hr
    by_cases hne : results = []
    · subst hne
      exact absurd hr (by simp [extract_plate_number])
    · by_cases hcl : cleaned_results results = []
      · obtain ⟨m, hm⟩ := pyMaxBy_isSome (fun x : TextCandidate => x.2) hne
        have hval : extract_plate_number results = some (pyUpper (pyStrip m.1), m.2) := by
          simp [extract_plate_number, if_neg hne, hcl, hm]
        rw [hval] at hr
        obtain rfl := Option.some.inj hr
        have hmem := (pyMaxBy_max _ results hm).1
        have hne' : pyStrip m.1 ≠ [] := hstrip m hmem
        have : (pyUpper (pyStrip m.1)).length = (pyStrip m.1).length :=
          List.length_map _ _
        simpa [this] using List.length_pos.mpr hne'
      · have hval : extract_plate_number results =
            pyMaxBy (fun x : TextCandidate => x.2) (cleaned_results results) := by
          simp only [extract_plate_number, if_neg hne, if_neg hcl]
        rw [hval] at hr
        have hmem := (pyMaxBy_max _ _ hr).1
        have := (mem_cleaned_results hmem).1
        omega

/-- C1 (amended, witness): on the singleton candidate list with raw text
`"ab"` the result string `"AB"` has length at least 1. -/
theorem extract_plate_number_none_iff_length_witness :
    1 ≤ ("AB".toList, (1 : ℚ)).1.length :=
  (extract_plate_number_none_iff_length [("ab".toList, (1 : ℚ))]).2
    (by decide) ("AB".toList, (1 : ℚ)) (by rfl)

/-- C2: when every candidate's cleaned text has length below 4 or above 10,
nothing survives the filter and `extract_plate_number` falls back to a
maximum-confidence candidate of the unfiltered list, returning its stripped
upper-cased raw text (not the cleaned form) and its confidence. -/
theorem extract_plate_number_fallback (results : List TextCandidate)
    (hne : results ≠ [])
    (hall : ∀ p ∈ results,
      (cleanText p.1).length < 4 ∨ 10 < (cleanText p.1).length) :
    ∃ m ∈ results, (∀ p ∈ results, p.2 ≤ m.2) ∧
      extract_plate_number results = some (pyUpper (pyStrip m.1), m.2) := by
  have hcl : cleaned_results results = [] := by
    simp only [cleaned_results, List.filterMap_eq_nil_iff]
    intro tc htc
    have : ¬(4 ≤ (cleanText tc.1).length ∧ (cleanText tc.1).length ≤ 10) := by
      rcases hall tc htc with h | h <;> omega
    simp [if_neg this]
  obtain ⟨m, hm⟩ := pyMaxBy_isSome (fun x : TextCandidate => x.2) hne
  obtain ⟨hmem, hmax⟩ := pyMaxBy_max _ results hm
  refine ⟨m, hmem, hmax, ?_⟩
  simp [extract_plate_number, if_neg hne, hcl, hm]

/-- C2 (witness): both candidates clean to two characters, so the fallback
returns the stripped upper-cased raw text of the higher-confidence one. -/
theorem extract_plate_number_fallback_witness :
    ∃ m ∈ [("ab".toList, (1 : ℚ)/2), ("xy?".toList, (3 : ℚ)/4)],
      (∀ p ∈ [("ab".toList, (1 : ℚ)/2), ("xy?".toList, (3 : ℚ)/4)], p.2 ≤ m.2) ∧
      extract_plate_number [("ab".toList, (1 : ℚ)/2), ("xy?".toList, (3 : ℚ)/4)] =
        some (pyUpper (pyStrip m.1), m.2) :=
  extract_plate_number_fallback _ (by decide) (by decide)

/-- C3: when at least one candidate's cleaned text has length between 4 and
10, `extract_plate_number` returns the earliest maximum-confidence pair of
the surviving `cleaned_results` list: everything before it in that list has
strictly smaller confidence and everything after at most its confidence. -/
theorem extract_plate_number_filtered (results : List TextCandidate)
    (hex : ∃ p ∈ results,
      4 ≤ (cleanText p.1).length ∧ (cleanText p.1).length ≤ 10) :
    ∃ l₁ l₂ m, cleaned_results results = l₁ ++ m :: l₂ ∧
      (∀ p ∈ l₁, p.2 < m.2) ∧ (∀ p ∈ l₂, p.2 ≤ m.2) ∧
      extract_plate_number results = some m := by
  obtain ⟨q, hq, hlen⟩ := hex
  have hne : results ≠ [] := List.ne_nil_of_mem hq
  have hcl : cleaned_results results ≠ [] := by
    have hmem : (cleanText q.1, q.2) ∈ cleaned_results results := by
      simp only [cleaned_results, List.mem_filterMap]
      exact ⟨q, hq, by simp [if_pos hlen]⟩
    exact List.ne_nil_of_mem hmem
  obtain ⟨m, l₁, l₂, hm, heq, h₁, h₂⟩ :=
    pyMaxBy_spec (fun x : TextCandidate => x.2) _ hcl
  refine ⟨l₁, l₂, m, heq, h₁, h₂, ?_⟩
  simp only [extract_plate_number, if_neg hne, if_neg hcl, hm]

/-- C3 (witness): the single candidate cleans to the 6-character `"AB12CD"`,
which survives the filter and is returned. -/
theorem extract_plate_number_filtered_witness :
    ∃ l₁ l₂ m, cleaned_results [("ab-12cd".toList, (1 : ℚ)/2)] = l₁ ++ m :: l₂ ∧
      (∀ p ∈ l₁, p.2 < m.2) ∧ (∀ p ∈ l₂, p.2 ≤ m.2) ∧
      extract_plate_number [("ab-12cd".toList, (1 : ℚ)/2)] = some m :=
  extract_plate_number_filtered _
    ⟨("ab-12cd".toList, (1 : ℚ)/2), by simp, by decide⟩

/-- C4: a successful `get_best_plate` returns a box of maximal area
(width times height) among the boxes of whichever detector path executed,
together with the crop of the source grid at that box expanded by a 5-pixel
margin on every side and clamped to the image bounds; the reported box
itself is the unexpanded original. -/
theorem get_best_plate_largest_crop (cascadePlates contourPlates : List Box)
    (img : PixelGrid) (g : PixelGrid) (b : Box)
    (h : get_best_plate cascadePlates contourPlates img = some (g, b)) :
    b ∈ usedPlates cascadePlates contourPlates ∧
    (∀ p ∈ usedPlates cascadePlates contourPlates, boxArea p ≤ boxArea b) ∧
    g = cropGrid img (max 0 (b.2.1 - 5)) (min (img.height : Int) (b.2.1 + b.2.2.2 + 5))
        (max 0 (b.1 - 5)) (min (img.width : Int) (b.1 + b.2.2.1 + 5)) := by
  obtain ⟨l₁, l₂, heq, h₁, h₂, hg⟩ := get_best_plate_some h
  refine ⟨?_, ?_, hg⟩
  · rw [heq]
    exact List.mem_append.mpr (Or.inr (List.mem_cons_self _ _))
  · intro p hp
    rw [heq] at hp
    rcases List.mem_append.mp hp with hp | hp
    · exact le_of_lt (h₁ p hp)
    · rcases List.mem_cons.mp hp with rfl | hp
      · exact le_rfl
      · exact h₂ p hp

/-- C4 (witness): of the two cascade boxes the larger one `(1,1,6,3)` is
selected and the crop is the padded clamped slice of the 100×200 image. -/
theorem get_best_plate_largest_crop_witness :
    (((1 : Int), 1, 6, 3) : Box) ∈ usedPlates [((0 : Int), 0, 4, 2), ((1 : Int), 1, 6, 3)] [] ∧
    (∀ p ∈ usedPlates [((0 : Int), 0, 4, 2), ((1 : Int), 1, 6, 3)] [],
      boxArea p ≤ boxArea (((1 : Int), 1, 6, 3) : Box)) ∧
    cropGrid testImg 0 9 0 12 =
      cropGrid testImg (max 0 ((1 : Int) - 5)) (min (testImg.height : Int) (1 + 3 + 5))
        (max 0 ((1 : Int) - 5)) (min (testImg.width : Int) (1 + 6 + 5)) :=
  get_best_plate_largest_crop [((0 : Int), 0, 4, 2), ((1 : Int), 1, 6, 3)] [] testImg
    (cropGrid testImg 0 9 0 12) ((1 : Int), 1, 6, 3) (by rfl)

/-- C5: `get_best_plate` works on the classifier detector's boxes first:
when those are non-empty the contour detector's output is irrelevant to the
result, and the result is `none` exactly when both detectors returned empty
lists. -/
theorem get_best_plate_fallback_policy (cascadePlates contourPlates : List Box)
    (img : PixelGrid) :
    (get_best_plate cascadePlates contourPlates img = none ↔
      cascadePlates = [] ∧ contourPlates = []) ∧
    (cascadePlates ≠ [] → ∀ contourPlatesB,
      get_best_plate cascadePlates contourPlates img =
        get_best_plate cascadePlates contourPlatesB img) := by
  constructor
  · constructor
    · intro h
      by_cases hc : cascadePlates = []
      · subst hc
        refine ⟨rfl, ?_⟩
        by_contra hg
        have hP : usedPlates ([] : List Box) contourPlates ≠ [] := by
          simpa [usedPlates] using hg
        obtain ⟨r, hr⟩ := get_best_plate_isSome img hP
        rw [h] at hr
        exact absurd hr (by simp)
      · exfalso
        have hP : usedPlates cascadePlates contourPlates ≠ [] := by
          simpa [usedPlates, if_neg hc] using hc
        obtain ⟨r, hr⟩ := get_best_plate_isSome img hP
        rw [h] at hr
        exact absurd hr (by simp)
    · rintro ⟨rfl, rfl⟩
      rfl
  · intro hc contourPlatesB
    simp [get_best_plate, usedPlates, if_neg hc]

/-- C5 (witness): with a non-empty classifier list the result does not
change when the contour list is replaced by the empty list. -/
theorem get_best_plate_fallback_policy_witness :
    get_best_plate [((0 : Int), 0, 4, 2)] [((1 : Int), 1, 2, 2)] testImg =
      get_best_plate [((0 : Int), 0, 4, 2)] [] testImg :=
  (get_best_plate_fallback_policy [((0 : Int), 0, 4, 2)] [((1 : Int), 1, 2, 2)] testImg).2
    (by decide) []

/-- C9: the box `get_best_plate` selects is the earliest maximal-area box in
the order the executed detector produced: the detector list splits around
the returned box with all earlier boxes of strictly smaller area and all
later boxes of area at most the returned one (the embedded reverse sort is
stable, as Python's is). -/
theorem get_best_plate_stable_tiebreak (cascadePlates contourPlates : List Box)
    (img : PixelGrid) (g : PixelGrid) (b : Box)
    (h : get_best_plate cascadePlates contourPlates img = some (g, b)) :
    ∃ l₁ l₂, usedPlates cascadePlates contourPlates = l₁ ++ b :: l₂ ∧
      (∀ p ∈ l₁, boxArea p < boxArea b) ∧ (∀ p ∈ l₂, boxArea p ≤ boxArea b) := by
  obtain ⟨l₁, l₂, heq, h₁, h₂, -⟩ := get_best_plate_some h
  exact ⟨l₁, l₂, heq, h₁, h₂⟩

/-- C9 (witness): two boxes tie at area 6; the earlier one `(0,0,2,3)` is
selected, with the other tying box after it in the decomposition. -/
theorem get_best_plate_stable_tiebreak_witness :
    ∃ l₁ l₂,
      usedPlates [((0 : Int), 0, 2, 3), ((5 : Int), 5, 3, 2), ((0 : Int), 0, 1, 1)] [] =
        l₁ ++ (((0 : Int), 0, 2, 3) : Box) :: l₂ ∧
      (∀ p ∈ l₁, boxArea p < boxArea (((0 : Int), 0, 2, 3) : Box)) ∧
      (∀ p ∈ l₂, boxArea p ≤ boxArea (((0 : Int), 0, 2, 3) : Box)) :=
  get_best_plate_stable_tiebreak
    [((0 : Int), 0, 2, 3), ((5 : Int), 5, 3, 2), ((0 : Int), 0, 1, 1)] [] testImg
    (cropGrid testImg 0 8 0 7) ((0 : Int), 0, 2, 3) (by rfl)

/-- C6: `resize_if_needed` is idempotent, for any resizer that honours the
requested target dimensions (as `cv2.resize` does): an image whose larger
dimension is at most 1920 is returned unchanged, and applying the function
twice equals applying it once, because the scaled dimensions never exceed
1920. -/
theorem resize_if_needed_idempotent (cv2resize : PixelGrid → Nat → Nat → PixelGrid)
    (hrs : ∀ g w h, (cv2resize g w h).width = w ∧ (cv2resize g w h).height = h)
    (img : PixelGrid) :
    (max img.height img.width ≤ 1920 → resize_if_needed cv2resize img = img) ∧
    resize_if_needed cv2resize (resize_if_needed cv2resize img) =
      resize_if_needed cv2resize img := by
  have hsmall : ∀ g : PixelGrid, max g.height g.width ≤ 1920 →
      resize_if_needed cv2resize g = g := by
    intro g hg
    simp only [resize_if_needed]
    rw [if_neg (by omega)]
  refine ⟨hsmall img, ?_⟩
  by_cases hbig : 1920 < max img.height img.width
  · have hL : (0 : ℚ) < ((max img.height img.width : Nat) : ℚ) := by
      have : 0 < max img.height img.width := by omega
      exact_mod_cast this
    have hcast : max ((img.height : Nat) : ℚ) ((img.width : Nat) : ℚ) =
        ((max img.height img.width : Nat) : ℚ) := (Nat.cast_max _ _).symm
    have key : ∀ d : Nat, d ≤ max img.height img.width →
        (Int.floor ((d : ℚ) * (((1920 : Nat) : ℚ) /
          max ((img.height : Nat) : ℚ) ((img.width : Nat) : ℚ)))).toNat ≤ 1920 := by
      intro d hd
      rw [hcast, show ((1920 : Nat) : ℚ) = (1920 : ℚ) by norm_num]
      have hle : (d : ℚ) ≤ ((max img.height img.width : Nat) : ℚ) := by exact_mod_cast hd
      have hnn : (0 : ℚ) ≤ (1920 : ℚ) / ((max img.height img.width : Nat) : ℚ) := by
        positivity
      have h1 : (d : ℚ) * ((1920 : ℚ) / ((max img.height img.width : Nat) : ℚ)) ≤ 1920 := by
        calc (d : ℚ) * ((1920 : ℚ) / ((max img.height img.width : Nat) : ℚ))
            ≤ ((max img.height img.width : Nat) : ℚ) *
              ((1920 : ℚ) / ((max img.height img.width : Nat) : ℚ)) :=
              mul_le_mul_of_nonneg_right hle hnn
          _ = 1920 := mul_div_cancel₀ _ (ne_of_gt hL)
      have h2 : Int.floor ((d : ℚ) * ((1920 : ℚ) / ((max img.height img.width : Nat) : ℚ)))
          ≤ (1920 : ℤ) := by
        have h3 := Int.floor_le_floor h1
        rwa [show Int.floor (1920 : ℚ) = (1920 : ℤ) by norm_num] at h3
      exact Int.toNat_le.mpr h2
    have hres : resize_if_needed cv2resize img =
        cv2resize img
          ((Int.floor ((img.width : ℚ) * (((1920 : Nat) : ℚ) /
            max ((img.height : Nat) : ℚ) ((img.width : Nat) : ℚ)))).toNat)
          ((Int.floor ((img.height : ℚ) * (((1920 : Nat) : ℚ) /
            max ((img.height : Nat) : ℚ) ((img.width : Nat) : ℚ)))).toNat) := by
      simp only [resize_if_needed]
      rw [if_pos hbig]
    rw [hres]
    apply hsmall
    rw [(hrs img _ _).1, (hrs img _ _).2]
    exact max_le (key _ (le_max_left _ _)) (key _ (le_max_right _ _))
  · have hle : max img.height img.width ≤ 1920 := by omega
    rw [hsmall img hle]
    exact hsmall img hle

/-- C6 (witness): the conjunction instantiated at the 3840×1000 image and a
resizer honouring the requested dimensions: the second application changes
nothing. -/
theorem resize_if_needed_idempotent_witness :
    (max bigImg.height bigImg.width ≤ 1920 →
      resize_if_needed resizeStub bigImg = bigImg) ∧
    resize_if_needed resizeStub (resize_if_needed resizeStub bigImg) =
      resize_if_needed resizeStub bigImg :=
  resize_if_needed_idempotent resizeStub (fun _ _ _ => ⟨rfl, rfl⟩) bigImg

/-- C7: any byte blob longer than 10 MiB is rejected with the size-limit
message, whatever its content, its declared MIME type, and whatever the
decoder would have said. -/
theorem validate_image_size_limit (decode : List Nat → Except (List Char) Unit)
    (file_content : List Nat) (content_type : List Char)
    (h : MAX_FILE_SIZE < file_content.length) :
    validate_image decode file_content content_type =
      (false, "File size exceeds 10MB limit".toList) := by
  simp only [validate_image]
  rw [if_pos h]

/-- C7 (witness): a blob of 10 MiB plus one byte is rejected even with an
always-accepting decoder and a disallowed MIME type. -/
theorem validate_image_size_limit_witness :
    validate_image (fun _ => Except.ok ()) (List.replicate (MAX_FILE_SIZE + 1) 0)
      "image/gif".toList = (false, "File size exceeds 10MB limit".toList) :=
  validate_image_size_limit _ _ _ (by simp)

/-- C10: `validate_image` always returns a pair (the embedded `match` is the
Python `try/except`, so decoder exceptions cannot escape); it returns
`(true, empty message)` exactly when the size check, the MIME allow-list
check and the decode check all pass, and a decoder failure surviving the
first two checks yields invalid with a non-empty message. -/
theorem validate_image_total_spec (decode : List Nat → Except (List Char) Unit)
    (file_content : List Nat) (content_type : List Char) :
    (validate_image decode file_content content_type = (true, []) ↔
      (file_content.length ≤ MAX_FILE_SIZE ∧ content_type ∈ SUPPORTED_FORMATS ∧
        decode file_content = Except.ok ())) ∧
    (∀ e, file_content.length ≤ MAX_FILE_SIZE → content_type ∈ SUPPORTED_FORMATS →
      decode file_content = Except.error e →
      validate_image decode file_content content_type =
        (false, invalidImageMsg ++ e) ∧
      1 ≤ (invalidImageMsg ++ e).length) := by
  by_cases hsize : MAX_FILE_SIZE < file_content.length
  · constructor
    · rw [validate_image, if_pos hsize]
      constructor
      · intro h
        exact absurd h (by simp)
      · rintro ⟨h, -⟩
        exact absurd h (not_le.mpr hsize)
    · intro e h1
      exact absurd h1 (not_le.mpr hsize)
  · by_cases hmime : content_type ∈ SUPPORTED_FORMATS
    · cases hdec : decode file_content with
      | ok u =>
        cases u
        constructor
        · simp [validate_image, hsize, hmime, hdec, not_lt.mp hsize]
        · intro e h1 h2 h3
          exact absurd h3 (by simp)
      | error e =>
        constructor
        · simp [validate_image, hsize, hmime, hdec]
        · intro e2 h1 h2 h3
          obtain rfl : e = e2 := by
            injection h3
          refine ⟨by simp [validate_image, hsize, hmime, hdec], ?_⟩
          rw [List.length_append]
          have hlen : invalidImageMsg.length = 20 := rfl
          omega
    · constructor
      · rw [validate_image, if_neg hsize, if_pos hmime]
        constructor
        · intro h
          exact absurd h (by simp)
        · rintro ⟨-, h, -⟩
          exact absurd h hmime
      · intro e h1 h2
        exact absurd h2 hmime

/-- C10 (witness): a failing decoder on an in-size blob of allowed MIME type
produces invalid with the prefixed non-empty message. -/
theorem validate_image_total_spec_witness :
    validate_image (fun _ => Except.error "broken header".toList) []
      "image/png".toList = (false, invalidImageMsg ++ "broken header".toList) ∧
    1 ≤ (invalidImageMsg ++ "broken header".toList).length :=
  (validate_image_total_spec (fun _ => Except.error "broken header".toList) []
    "image/png".toList).2 "broken header".toList (by decide) (by decide) rfl

/-- C8: `detect_plates_contour_method` emits exactly the bounding rectangles
of a sublist of the 10 first contours of the stable area-descending sort:
each kept contour is an input contour whose polygon approximation has 4
vertices and whose bounding-rectangle aspect ratio lies in `[2.0, 5.0]`, the
kept contours have pairwise non-increasing areas (so the output is in
descending source-contour area order), and every one of those first 10
contours has area at least that of every contour beyond the first 10. -/
theorem detect_plates_contour_method_spec (contours : List Contour) :
    ∃ kept : List Contour,
      kept.Sublist ((pySortedDesc Contour.area contours).take 10) ∧
      (∀ c ∈ kept, c ∈ contours ∧ c.approxLen = 4 ∧ aspectOk c.rect) ∧
      kept.Pairwise (fun a b => b.area ≤ a.area) ∧
      (∀ c ∈ (pySortedDesc Contour.area contours).take 10,
        ∀ d ∈ (pySortedDesc Contour.area contours).drop 10, d.area ≤ c.area) ∧
      detect_plates_contour_method contours = kept.map Contour.rect := by
  refine ⟨((pySortedDesc Contour.area contours).take 10).filter
      (fun c => decide (c.approxLen = 4 ∧ aspectOk c.rect)), ?_, ?_, ?_, ?_, ?_⟩
  · exact List.filter_sublist _
  · intro c hc
    have hc' := List.mem_filter.mp hc
    have hprop : c.approxLen = 4 ∧ aspectOk c.rect := by simpa using hc'.2
    have hc2 : c ∈ pySortedDesc Contour.area contours :=
      List.take_subset 10 _ hc'.1
    exact ⟨(pySortedDesc_perm Contour.area contours).mem_iff.mp hc2, hprop.1, hprop.2⟩
  · exact ((pySortedDesc_pairwise Contour.area contours).sublist
      (List.take_sublist 10 _)).sublist (List.filter_sublist _)
  · intro c hc d hd
    have hs := pySortedDesc_pairwise Contour.area contours
    rw [← List.take_append_drop 10 (pySortedDesc Contour.area contours)] at hs
    exact (List.pairwise_append.mp hs).2.2 c hc d hd
  · simp only [detect_plates_contour_method]
    exact filterMap_ite_eq_filter_map
      (fun c => c.approxLen = 4 ∧ aspectOk c.rect) Contour.rect _

end NLPOCR
